import Mathlib

/-!
Shallow embedding of the `blob-stream-rs` receiver core and a verification of
its specification.

The embedding follows the Rust sources:
* `src/lib.rs`            — `BlobStreamIn` (chunk-reassembly buffer),
* `src/protocol.rs`       — wire encoding of the per-transfer commands,
* `src/in_logic_front.rs` — `InLogicFront` (multi-transfer multiplexer).

Machine integers are embedded as `Nat`, with explicit `% 2 ^ w` exactly where
the Rust code casts (`payload.len() as u16`), and with `< 2 ^ w` side
conditions standing for the value range of the Rust integer types.
Byte buffers are `List Nat`; the `bit_array_rs` bitset is a `List Bool`.
Fallible operations return `Except` / `Option`, and mutation of `&mut self`
is embedded as explicit state passing: a Rust method returning
`Result<(), E>` becomes a Lean function returning `State × Except E Unit`.

Two modules of the repository (`src/in_logic.rs` and `src/protocol_front.rs`)
are referenced by `in_logic_front.rs` and by the tests but are not part of the
provided sources; the definitions that stand for them are modelled from the
spec and are marked as such in their doc comments.
-/

namespace BlobStream

/-! ### `src/lib.rs`: `BlobError` and `BlobStreamIn` -/

/-- Embedding of `BlobError` from `src/lib.rs`. -/
inductive BlobError where
  | InvalidChunkIndex (id max : Nat)
  | UnexpectedChunkSize (expected found id : Nat)
  | OutOfBounds
  | RedundantSameContents (chunk_index : Nat)
  | RedundantContentDiffers (chunk_index : Nat)
  deriving DecidableEq, Repr

/-- Embedding of the `BlobStreamIn` struct from `src/lib.rs`.
`bit_array` embeds the `bit_array_rs::BitArray` (bit `i` is element `i`),
`blob` is the backing byte buffer. -/
structure BlobStreamIn where
  bit_array : List Bool
  fixed_chunk_size : Nat
  octet_count : Nat
  blob : List Nat
  deriving DecidableEq, Repr

namespace BlobStreamIn

/-- Rust `usize::div_ceil` for a positive divisor: `(a + b - 1) / b`. -/
def div_ceil (a b : Nat) : Nat := (a + b - 1) / b

/-- Embedding of `BlobStreamIn::new` (`src/lib.rs`).  The Rust function
asserts `fixed_chunk_size > 0`; the embedding is total and the positivity
is carried as a hypothesis by the theorems. -/
def new (octet_count fixed_chunk_size : Nat) : BlobStreamIn :=
  { bit_array := List.replicate (div_ceil octet_count fixed_chunk_size) false
    fixed_chunk_size := fixed_chunk_size
    octet_count := octet_count
    blob := List.replicate octet_count 0 }

/-- Embedding of `BlobStreamIn::chunk_count`: `self.bit_array.bit_count()`. -/
def chunk_count (s : BlobStreamIn) : Nat := s.bit_array.length

/-- Embedding of `BlobStreamIn::is_complete`: `self.bit_array.all_set()`. -/
def is_complete (s : BlobStreamIn) : Bool := s.bit_array.all (fun b => b)

/-- Embedding of `BlobStreamIn::blob`:
`self.is_complete().then(|| &self.blob[..])`. -/
def blobOpt (s : BlobStreamIn) : Option (List Nat) :=
  if s.is_complete then some s.blob else none

/-- The `expected_size` computed inside `BlobStreamIn::set_chunk`
(`src/lib.rs` lines 129–134): `octet_count % fixed_chunk_size` for the last
chunk index, `fixed_chunk_size` otherwise. -/
def expectedSize (s : BlobStreamIn) (chunk_index : Nat) : Nat :=
  if chunk_index = s.bit_array.length - 1 then
    -- It was the last chunk
    s.octet_count % s.fixed_chunk_size
  else
    s.fixed_chunk_size

/-- Embedding of `BlobStreamIn::set_chunk` (`src/lib.rs`).  The `&mut self`
method returning `Result<(), BlobError>` becomes a function returning the
new state paired with the result; every error branch leaves the state as it
was, exactly as in the source. -/
def set_chunk (s : BlobStreamIn) (chunk_index : Nat) (payload : List Nat) :
    BlobStreamIn × Except BlobError Unit :=
  let chunk_count := s.bit_array.length
  if chunk_index ≥ chunk_count then
    (s, .error (.InvalidChunkIndex chunk_index chunk_count))
  else
    let expected_size := expectedSize s chunk_index
    if payload.length ≠ expected_size then
      (s, .error (.UnexpectedChunkSize expected_size payload.length chunk_index))
    else
      let octet_offset := chunk_index * s.fixed_chunk_size
      if octet_offset + expected_size > s.blob.length then
        (s, .error .OutOfBounds)
      else if s.bit_array.getD chunk_index false then
        -- It has been set previously
        let is_same_contents :=
          (s.blob.drop octet_offset).take expected_size = payload
        if is_same_contents then
          (s, .error (.RedundantSameContents chunk_index))
        else
          (s, .error (.RedundantContentDiffers chunk_index))
      else
        ({ s with
            blob := s.blob.take octet_offset ++ payload
              ++ s.blob.drop (octet_offset + expected_size)
            bit_array := s.bit_array.set chunk_index true },
          .ok ())

/-- A sequence of `set_chunk` calls applied in order, results discarded
(each call's state is kept whether it succeeded or failed). -/
def applyChunks (s : BlobStreamIn) : List (Nat × List Nat) → BlobStreamIn
  | [] => s
  | (i, p) :: rest => applyChunks (s.set_chunk i p).1 rest

/-- The bytes stored in the buffer for chunk index `j`: the
`expectedSize`-long slice at offset `j * fixed_chunk_size`. -/
def chunkBytes (s : BlobStreamIn) (j : Nat) : List Nat :=
  (s.blob.drop (j * s.fixed_chunk_size)).take (expectedSize s j)

/-- Well-formedness of a `BlobStreamIn`, as established by `new` and
preserved by `set_chunk`: positive chunk size, buffer sized to
`octet_count`, bitset sized to `ceil(octet_count / fixed_chunk_size)`. -/
def Wf (s : BlobStreamIn) : Prop :=
  0 < s.fixed_chunk_size ∧
  s.blob.length = s.octet_count ∧
  s.bit_array.length = div_ceil s.octet_count s.fixed_chunk_size

end BlobStreamIn

/-! ### `src/protocol.rs`: wire encoding of the per-transfer commands

The `flood_rs` octet streams are embedded as `List Nat` of byte values:
writing appends bytes (big-endian fixed-width integers), reading consumes
bytes from the front and returns `none` on a truncated stream. -/

/-- Big-endian bytes of a `u16` value (`flood_rs` `write_u16`). -/
def u16Bytes (v : Nat) : List Nat := [v / 2 ^ 8 % 2 ^ 8, v % 2 ^ 8]

/-- Big-endian bytes of a `u32` value (`flood_rs` `write_u32`). -/
def u32Bytes (v : Nat) : List Nat :=
  [v / 2 ^ 24 % 2 ^ 8, v / 2 ^ 16 % 2 ^ 8, v / 2 ^ 8 % 2 ^ 8, v % 2 ^ 8]

/-- Big-endian bytes of a `u64` value (`flood_rs` `write_u64`). -/
def u64Bytes (v : Nat) : List Nat :=
  [v / 2 ^ 56 % 2 ^ 8, v / 2 ^ 48 % 2 ^ 8, v / 2 ^ 40 % 2 ^ 8, v / 2 ^ 32 % 2 ^ 8,
    v / 2 ^ 24 % 2 ^ 8, v / 2 ^ 16 % 2 ^ 8, v / 2 ^ 8 % 2 ^ 8, v % 2 ^ 8]

/-- `flood_rs` `read_u8`: one byte off the stream, error when empty. -/
def readU8 : List Nat → Option (Nat × List Nat)
  | [] => none
  | b :: rest => some (b, rest)

/-- `flood_rs` `read_u16`: two big-endian bytes. -/
def readU16 (s : List Nat) : Option (Nat × List Nat) := do
  let (b0, s) ← readU8 s
  let (b1, s) ← readU8 s
  pure (b0 * 2 ^ 8 + b1, s)

/-- `flood_rs` `read_u32`: four big-endian bytes. -/
def readU32 (s : List Nat) : Option (Nat × List Nat) := do
  let (h, s) ← readU16 s
  let (l, s) ← readU16 s
  pure (h * 2 ^ 16 + l, s)

/-- `flood_rs` `read_u64`: eight big-endian bytes. -/
def readU64 (s : List Nat) : Option (Nat × List Nat) := do
  let (h, s) ← readU32 s
  let (l, s) ← readU32 s
  pure (h * 2 ^ 32 + l, s)

/-- `flood_rs` `read(&mut buf)` into an `n`-byte buffer: takes exactly `n`
bytes, error on a shorter stream. -/
def readOctets (n : Nat) (s : List Nat) : Option (List Nat × List Nat) :=
  if n ≤ s.length then some (s.take n, s.drop n) else none

/-- Embedding of `SetChunkData` (`src/protocol.rs`).  `chunk_index` stands
for a `u32`, `payload` for a `Vec<u8>`. -/
structure SetChunkData where
  chunk_index : Nat
  payload : List Nat
  deriving DecidableEq, Repr

/-- Embedding of `SetChunkData::to_stream`: `write_u32(chunk_index)`,
`write_u16(payload.len() as u16)` — note the truncating cast — then the
payload bytes. -/
def SetChunkData.to_stream (d : SetChunkData) : List Nat :=
  u32Bytes d.chunk_index ++ u16Bytes (d.payload.length % 2 ^ 16) ++ d.payload

/-- Embedding of `SetChunkData::from_stream`. -/
def SetChunkData.from_stream (s : List Nat) : Option (SetChunkData × List Nat) := do
  let (chunk_index, s) ← readU32 s
  let (octet_length, s) ← readU16 s
  let (payload, s) ← readOctets octet_length s
  pure (⟨chunk_index, payload⟩, s)

/-- Embedding of `SenderToReceiverCommands` (`src/protocol.rs`). -/
inductive SenderToReceiverCommands where
  | SetChunk (data : SetChunkData)
  deriving DecidableEq, Repr

/-- Embedding of `SenderToReceiverCommands::to_octet`: tag `0x01`. -/
def SenderToReceiverCommands.to_octet : SenderToReceiverCommands → Nat
  | .SetChunk _ => 0x01

/-- Embedding of `SenderToReceiverCommands::to_stream`: the tag octet then
the variant's payload. -/
def SenderToReceiverCommands.to_stream (c : SenderToReceiverCommands) : List Nat :=
  c.to_octet :: match c with
    | .SetChunk d => d.to_stream

/-- Embedding of `SenderToReceiverCommands::from_stream`: reads the tag,
dispatches on it, fails on an unknown tag (`TryFrom<u8>` in the source). -/
def SenderToReceiverCommands.from_stream (s : List Nat) :
    Option (SenderToReceiverCommands × List Nat) := do
  let (command_value, s) ← readU8 s
  match command_value with
  | 0x01 => do
      let (d, s) ← SetChunkData.from_stream s
      pure (.SetChunk d, s)
  | _ => none

/-- Embedding of `AckChunkData` (`src/protocol.rs`).
`waiting_for_chunk_index` stands for a `u32`, `receive_mask_after_last`
for a `u64`. -/
structure AckChunkData where
  waiting_for_chunk_index : Nat
  receive_mask_after_last : Nat
  deriving DecidableEq, Repr

/-- Embedding of `AckChunkData::to_stream`. -/
def AckChunkData.to_stream (d : AckChunkData) : List Nat :=
  u32Bytes d.waiting_for_chunk_index ++ u64Bytes d.receive_mask_after_last

/-- Embedding of `AckChunkData::from_stream`. -/
def AckChunkData.from_stream (s : List Nat) : Option (AckChunkData × List Nat) := do
  let (waiting_for_chunk_index, s) ← readU32 s
  let (receive_mask_after_last, s) ← readU64 s
  pure (⟨waiting_for_chunk_index, receive_mask_after_last⟩, s)

/-- Embedding of `ReceiverToSenderCommands` (`src/protocol.rs`). -/
inductive ReceiverToSenderCommands where
  | AckChunk (data : AckChunkData)
  deriving DecidableEq, Repr

/-- Embedding of `ReceiverToSenderCommands::to_octet`: tag `0x02`. -/
def ReceiverToSenderCommands.to_octet : ReceiverToSenderCommands → Nat
  | .AckChunk _ => 0x02

/-- Embedding of `ReceiverToSenderCommands::to_stream`. -/
def ReceiverToSenderCommands.to_stream (c : ReceiverToSenderCommands) : List Nat :=
  c.to_octet :: match c with
    | .AckChunk d => d.to_stream

/-- Embedding of `ReceiverToSenderCommands::from_stream`. -/
def ReceiverToSenderCommands.from_stream (s : List Nat) :
    Option (ReceiverToSenderCommands × List Nat) := do
  let (command_value, s) ← readU8 s
  match command_value with
  | 0x02 => do
      let (d, s) ← AckChunkData.from_stream s
      pure (.AckChunk d, s)
  | _ => none

/-! ### `src/in_logic.rs` (not among the provided sources): per-transfer logic

`in_logic_front.rs` and the tests use `crate::in_logic::InLogic`, but
`in_logic.rs` itself is not part of the provided sources, so `InLogic` is
modelled from the spec (§2 TransferSession, §4.2 ReceiveWindowTracker,
§4.4 TransferSession operations). -/

/-- Modelled from the spec: the contiguous-prefix scan of §4.2 — "let `w` =
smallest index with bit unset, or `chunk_count` if none".  `firstUnset bits`
is the index of the first `false` in `bits`, or `bits.length` when all bits
are set. -/
def firstUnset : List Bool → Nat
  | [] => 0
  | b :: rest => if b then firstUnset rest + 1 else 0

/-- Modelled from the spec: the 64-bit lookahead mask of §4.2 — "bit `i` =
bit state of index `w + 1 + i`, for `i` in `[0, 64)`, treating indices
`>= chunk_count` as unset".  `ackMask bits start n` packs the bit states of
indices `start, start + 1, …, start + n - 1` little-endian; out-of-range
indices read as `false` via `getD`. -/
def ackMask (bits : List Bool) (start : Nat) : Nat → Nat
  | 0 => 0
  | n + 1 => (if bits.getD start false then 1 else 0) + 2 * ackMask bits (start + 1) n

/-- Modelled from the spec: `InLogic` (the missing `src/in_logic.rs`), the
per-transfer receive logic — "TransferSession: owns exactly one
ChunkBuffer/ReceiveWindowTracker pair" (§3); the ChunkBuffer is the
`BlobStreamIn` of `src/lib.rs`. -/
structure InLogic where
  in_stream : BlobStreamIn
  deriving DecidableEq, Repr

/-- Modelled from the spec: `InLogic::new(octet_count, chunk_size)` creates
the owned `BlobStreamIn` (§3 lifecycle: "created when a transfer starts"). -/
def InLogic.new (octet_count chunk_size : Nat) : InLogic :=
  ⟨BlobStreamIn.new octet_count chunk_size⟩

/-- Errors surfaced by the front logic as `io::Error` values.  The embedding
keeps them structured: the "Unknown transfer_id" error built in
`src/in_logic_front.rs` and a `BlobError` propagated from `set_chunk`. -/
inductive IoError where
  | unknownTransferId (id : Nat)
  | blob (e : BlobError)
  deriving DecidableEq, Repr

/-- Modelled from the spec: `InLogic::receive` — §4.4 `accept_chunk`
"delegates to ChunkBuffer::set_chunk; `RedundantSameContents` is treated as
success from the caller's perspective, `RedundantContentDiffers` must be
surfaced as an error". -/
def InLogic.receive (l : InLogic) (command : SenderToReceiverCommands) :
    InLogic × Except IoError Unit :=
  match command with
  | .SetChunk d =>
      let r := l.in_stream.set_chunk d.chunk_index d.payload
      (⟨r.1⟩,
        match r.2 with
        | .ok _ => .ok ()
        | .error (.RedundantSameContents _) => .ok ()
        | .error e => .error (.blob e))

/-- Modelled from the spec: `InLogic::send` — §4.2 `compute_ack` packaged as
the `AckChunk` command (checked against `tests/in_logic.rs`): the waiting
index is the contiguous-prefix scan, the mask covers the 64 indices after
it. -/
def InLogic.send (l : InLogic) : ReceiverToSenderCommands :=
  let w := firstUnset l.in_stream.bit_array
  .AckChunk ⟨w, ackMask l.in_stream.bit_array (w + 1) 64⟩

/-- The `AckChunkData` carried by `InLogic.send` (its single variant). -/
def InLogic.ackData (l : InLogic) : AckChunkData :=
  match l.send with
  | .AckChunk a => a

/-! ### `src/protocol_front.rs` (not among the provided sources): front-layer
command types, modelled from the spec (§6 front-layer rows) and the uses in
`src/in_logic_front.rs`. -/

/-- Modelled from the spec: `StartTransferData` — §6 StartTransfer payload
`transfer_id: u16`, `total_octet_size: u32`, `chunk_size: u16`. -/
structure StartTransferData where
  transfer_id : Nat
  total_octet_size : Nat
  chunk_size : Nat
  deriving DecidableEq, Repr

/-- Modelled from the spec: `SetChunkFrontData` — §6 wrapped SetChunk:
`transfer_id: u16`, then the inner `SetChunkData`. -/
structure SetChunkFrontData where
  transfer_id : Nat
  data : SetChunkData
  deriving DecidableEq, Repr

/-- Modelled from the spec: `SenderToReceiverFrontCommands` — the
sender-to-receiver front command family (§6). -/
inductive SenderToReceiverFrontCommands where
  | StartTransfer (data : StartTransferData)
  | SetChunk (data : SetChunkFrontData)
  deriving DecidableEq, Repr

/-- Modelled from the spec: `AckChunkFrontData` — §6 wrapped AckChunk:
`transfer_id: u16`, then the inner `AckChunkData`. -/
structure AckChunkFrontData where
  transfer_id : Nat
  data : AckChunkData
  deriving DecidableEq, Repr

/-- Modelled from the spec: `ReceiverToSenderFrontCommands` — the
receiver-to-sender front command family (§6: AckStart, wrapped AckChunk). -/
inductive ReceiverToSenderFrontCommands where
  | AckStart (transfer_id : Nat)
  | AckChunk (data : AckChunkFrontData)
  deriving DecidableEq, Repr

/-! ### `src/in_logic_front.rs`: `InLogicFront`, the multi-transfer
multiplexer.  The `HashMap<u16, InLogic>` is embedded as an association
list with the `HashMap` operations used by the source (`entry/or_insert_with`,
`get_mut`, iteration). -/

/-- Embedding of the `InLogicFront` struct (`src/in_logic_front.rs`): the
`transfers: HashMap<u16, InLogic>` map as an association list. -/
structure InLogicFront where
  transfers : List (Nat × InLogic)
  deriving DecidableEq, Repr

namespace InLogicFront

/-- Embedding of `InLogicFront::new`: the empty map. -/
def new : InLogicFront := ⟨[]⟩

/-- `HashMap::get` on the association list. -/
def lookupTransfer (f : InLogicFront) (id : Nat) : Option InLogic :=
  f.transfers.lookup id

/-- Embedding of `InLogicFront::receive` (`src/in_logic_front.rs`):
`StartTransfer` does `entry(id).or_insert_with(InLogic::new(..))` and
returns `Ok(())`; `SetChunk` delegates to the session found by `get_mut`
or fails with the "Unknown transfer_id" error. -/
def receive (f : InLogicFront) (command : SenderToReceiverFrontCommands) :
    InLogicFront × Except IoError Unit :=
  match command with
  | .StartTransfer start_transfer_data =>
      match f.transfers.lookup start_transfer_data.transfer_id with
      | some _ => (f, .ok ())
      | none =>
          (⟨(start_transfer_data.transfer_id,
              InLogic.new start_transfer_data.total_octet_size
                start_transfer_data.chunk_size) :: f.transfers⟩,
            .ok ())
  | .SetChunk chunk_data =>
      match f.transfers.lookup chunk_data.transfer_id with
      | some found =>
          let r := found.receive (.SetChunk chunk_data.data)
          (⟨f.transfers.map fun p =>
              if p.1 = chunk_data.transfer_id then (p.1, r.1) else p⟩,
            r.2)
      | none => (f, .error (.unknownTransferId chunk_data.transfer_id))

/-- Embedding of `InLogicFront::send`: one wrapped `AckChunk` per active
transfer. -/
def send (f : InLogicFront) : List ReceiverToSenderFrontCommands :=
  f.transfers.map fun p =>
    match (p.2).send with
    | .AckChunk ack_chunk => .AckChunk ⟨p.1, ack_chunk⟩

end InLogicFront

/-! ## Supporting lemmas -/

namespace BlobStreamIn

/-- `set_chunk` either leaves the state unchanged (every error branch) or
performs exactly the guarded write: the four guard conditions hold and the
new state is the buffer with `payload` spliced in at the chunk's offset and
the chunk's bit set. -/
theorem set_chunk_fst_cases (s : BlobStreamIn) (i : Nat) (p : List Nat) :
    (s.set_chunk i p).1 = s ∨
    (i < s.bit_array.length ∧ p.length = expectedSize s i ∧
      i * s.fixed_chunk_size + expectedSize s i ≤ s.blob.length ∧
      s.bit_array.getD i false = false ∧
      (s.set_chunk i p).1 = { s with
        blob := s.blob.take (i * s.fixed_chunk_size) ++ p
          ++ s.blob.drop (i * s.fixed_chunk_size + expectedSize s i)
        bit_array := s.bit_array.set i true }) := by
  simp only [set_chunk]
  split_ifs with h1 h2 h3 h4 h5
  · exact Or.inl rfl
  · exact Or.inl rfl
  · exact Or.inl rfl
  · exact Or.inl rfl
  · exact Or.inl rfl
  · exact Or.inr ⟨by omega, by omega, by omega, by simpa using h4, rfl⟩

/-- Characterization of a successful `set_chunk`: the guards hold and the
resulting state is the explicit record. -/
theorem set_chunk_eq_ok {s : BlobStreamIn} {i : Nat} {p : List Nat}
    {s' : BlobStreamIn} (h : s.set_chunk i p = (s', .ok ())) :
    i < s.bit_array.length ∧ p.length = expectedSize s i ∧
      i * s.fixed_chunk_size + expectedSize s i ≤ s.blob.length ∧
      s.bit_array.getD i false = false ∧
      s' = { s with
        blob := s.blob.take (i * s.fixed_chunk_size) ++ p
          ++ s.blob.drop (i * s.fixed_chunk_size + expectedSize s i)
        bit_array := s.bit_array.set i true } := by
  simp only [set_chunk] at h
  split_ifs at h with h1 h2 h3 h4 h5
  · exact absurd (congrArg Prod.snd h) (by simp)
  · exact absurd (congrArg Prod.snd h) (by simp)
  · exact absurd (congrArg Prod.snd h) (by simp)
  · exact absurd (congrArg Prod.snd h) (by simp)
  · exact absurd (congrArg Prod.snd h) (by simp)
  · exact ⟨by omega, by omega, by omega, by simpa using h4,
      (congrArg Prod.fst h).symm⟩

/-- `set_chunk` never changes `fixed_chunk_size`. -/
theorem fixed_chunk_size_set_chunk (s : BlobStreamIn) (i : Nat) (p : List Nat) :
    ((s.set_chunk i p).1).fixed_chunk_size = s.fixed_chunk_size := by
  rcases set_chunk_fst_cases s i p with h | ⟨-, -, -, -, h⟩
  · rw [h]
  · rw [h]

/-- `set_chunk` never changes `octet_count`. -/
theorem octet_count_set_chunk (s : BlobStreamIn) (i : Nat) (p : List Nat) :
    ((s.set_chunk i p).1).octet_count = s.octet_count := by
  rcases set_chunk_fst_cases s i p with h | ⟨-, -, -, -, h⟩
  · rw [h]
  · rw [h]

/-- `set_chunk` never changes the bitset length (the chunk count). -/
theorem bit_array_length_set_chunk (s : BlobStreamIn) (i : Nat) (p : List Nat) :
    ((s.set_chunk i p).1).bit_array.length = s.bit_array.length := by
  rcases set_chunk_fst_cases s i p with h | ⟨-, -, -, -, h⟩
  · rw [h]
  · rw [h]; simp

/-- `set_chunk` never changes the buffer length. -/
theorem blob_length_set_chunk (s : BlobStreamIn) (i : Nat) (p : List Nat) :
    ((s.set_chunk i p).1).blob.length = s.blob.length := by
  rcases set_chunk_fst_cases s i p with h | ⟨-, hp, hb, -, h⟩
  · rw [h]
  · rw [h]
    simp only [List.length_append, List.length_take, List.length_drop]
    omega

/-- `new` establishes well-formedness (given the chunk size positivity that
the Rust constructor asserts). -/
theorem wf_new (octet_count fixed_chunk_size : Nat) (h : 0 < fixed_chunk_size) :
    Wf (new octet_count fixed_chunk_size) := by
  refine ⟨h, ?_, ?_⟩ <;> simp [new]

/-- `set_chunk` preserves well-formedness. -/
theorem wf_set_chunk {s : BlobStreamIn} (hs : Wf s) (i : Nat) (p : List Nat) :
    Wf ((s.set_chunk i p).1) := by
  obtain ⟨h1, h2, h3⟩ := hs
  refine ⟨?_, ?_, ?_⟩
  · rw [fixed_chunk_size_set_chunk]; exact h1
  · rw [blob_length_set_chunk, octet_count_set_chunk]; exact h2
  · rw [bit_array_length_set_chunk, octet_count_set_chunk,
      fixed_chunk_size_set_chunk]; exact h3

/-- `applyChunks` preserves well-formedness. -/
theorem wf_applyChunks {s : BlobStreamIn} (hs : Wf s)
    (ops : List (Nat × List Nat)) : Wf (applyChunks s ops) := by
  induction ops generalizing s with
  | nil => exact hs
  | cons op rest ih => exact ih (wf_set_chunk hs op.1 op.2)

/-- Reading back a spliced-in slice: after replacing the `e` bytes at offset
`off` by `p`, the `e`-byte slice at `off` is `p`. -/
theorem drop_take_splice (l p : List Nat) (off e : Nat)
    (hp : p.length = e) (hle : off + e ≤ l.length) :
    ((l.take off ++ p ++ l.drop (off + e)).drop off).take e = p := by
  rw [List.append_assoc, List.drop_left' (by rw [List.length_take]; omega),
    List.take_left' hp]

/-- Splicing `p` in at offset `off` does not change any byte outside
`[off, off + e)`. -/
theorem getElem?_splice_untouched (l p : List Nat) (off e i : Nat)
    (hp : p.length = e) (hle : off + e ≤ l.length)
    (hi : i < off ∨ off + e ≤ i) :
    (l.take off ++ p ++ l.drop (off + e))[i]? = l[i]? := by
  rcases hi with hi | hi
  · rw [List.append_assoc,
      List.getElem?_append_left (by rw [List.length_take]; omega)]
    exact List.getElem?_take_of_lt hi
  · rw [List.getElem?_append_right
      (by simp only [List.length_append, List.length_take]; omega)]
    rw [List.getElem?_drop]
    congr 1
    simp only [List.length_append, List.length_take]
    omega

/-- Splicing `p` in at offset `off` does not change any slice disjoint from
`[off, off + e)`. -/
theorem drop_take_splice_outside (l p : List Nat) (off e a m : Nat)
    (hp : p.length = e) (hle : off + e ≤ l.length)
    (hdisj : a + m ≤ off ∨ off + e ≤ a) :
    ((l.take off ++ p ++ l.drop (off + e)).drop a).take m
      = (l.drop a).take m := by
  apply List.ext_getElem?
  intro n
  by_cases hn : n < m
  · rw [List.getElem?_take_of_lt hn, List.getElem?_take_of_lt hn,
      List.getElem?_drop, List.getElem?_drop]
    exact getElem?_splice_untouched l p off e _ hp hle (by omega)
  · rw [List.getElem?_eq_none (by rw [List.length_take]; omega),
      List.getElem?_eq_none (by rw [List.length_take]; omega)]

/-- `getD` after setting index `i` (in range) reads the written value. -/
theorem getD_set_self (l : List Bool) (i : Nat) (b : Bool) (hi : i < l.length) :
    (l.set i b).getD i false = b := by
  rw [List.getD_eq_getElem?_getD, List.getElem?_set_self (by simpa using hi)]
  rfl

/-- `getD` after setting a different index is unchanged. -/
theorem getD_set_ne (l : List Bool) (i j : Nat) (b : Bool) (hij : i ≠ j) :
    (l.set i b).getD j false = l.getD j false := by
  simp [List.getD_eq_getElem?_getD, List.getElem?_set_ne hij]

/-- After a successful `set_chunk` of `payload` at `idx`, a second
`set_chunk` at `idx` with any payload `q` of the same length fails without
touching the state: `RedundantSameContents` when the stored bytes (which
are `payload`) equal `q`, `RedundantContentDiffers` otherwise. -/
theorem set_chunk_after_ok {s s' : BlobStreamIn} {idx : Nat}
    {payload : List Nat} (h : s.set_chunk idx payload = (s', .ok ()))
    (q : List Nat) (hq : q.length = payload.length) :
    s'.set_chunk idx q =
      (s', .error (if payload = q then BlobError.RedundantSameContents idx
        else BlobError.RedundantContentDiffers idx)) := by
  obtain ⟨hlt, hp, hb, hg, hs'⟩ := set_chunk_eq_ok h
  have hfix : s'.fixed_chunk_size = s.fixed_chunk_size := by rw [hs']
  have hoct : s'.octet_count = s.octet_count := by rw [hs']
  have hbitlen : s'.bit_array.length = s.bit_array.length := by rw [hs']; simp
  have hexp : expectedSize s' idx = expectedSize s idx := by
    simp [expectedSize, hfix, hoct, hbitlen]
  have hblen : s'.blob.length = s.blob.length := by
    rw [hs']
    simp only [List.length_append, List.length_take, List.length_drop]
    omega
  have hgd : s'.bit_array.getD idx false = true := by
    rw [hs']; exact getD_set_self _ _ _ hlt
  have hstored :
      (s'.blob.drop (idx * s'.fixed_chunk_size)).take (expectedSize s' idx)
        = payload := by
    rw [hexp, hfix, hs']
    exact drop_take_splice s.blob payload _ _ hp hb
  by_cases hpq : payload = q
  · rw [if_pos hpq]
    simp only [set_chunk]
    split_ifs with g1 g2 g3 g4
    · omega
    · rw [hexp] at g2; omega
    · rw [hexp, hfix, hblen] at g3; omega
    · rfl
    · exact absurd (hpq ▸ hstored) g4
  · rw [if_neg hpq]
    simp only [set_chunk]
    split_ifs with g1 g2 g3 g4
    · omega
    · rw [hexp] at g2; omega
    · rw [hexp, hfix, hblen] at g3; omega
    · exact absurd (hstored.symm.trans g4) hpq
    · rfl

end BlobStreamIn

/-! ## Claims -/

open BlobStreamIn

/-- **C1** (code bug): the claim states that the last chunk index accepts
exactly a payload of length `total_octet_count - fixed_chunk_size *
(chunk_count - 1)` — equal to `fixed_chunk_size` when the chunk size divides
the total evenly.  The code instead computes `octet_count % fixed_chunk_size`
(`src/lib.rs` line 131), which is `0` in the evenly-dividing case: for
`new(10, 5)` the claim's expected length for index 1 is `5`, but `set_chunk`
computes `expected_size = 0` and rejects the 5-byte payload that the
repository's own test (`tests/in_logic.rs`, `check_receive`) sends, with
`UnexpectedChunkSize(0, 5, 1)`. -/
theorem c1_last_chunk_expected_size_code_bug :
    expectedSize (new 10 5) 1 = 0 ∧
    (new 10 5).octet_count
        - (new 10 5).fixed_chunk_size * ((new 10 5).chunk_count - 1) = 5 ∧
    (new 10 5).set_chunk 1 [0x8f, 0x23, 0x98, 0xfa, 0x99]
      = (new 10 5, .error (.UnexpectedChunkSize 0 5 1)) :=
  ⟨rfl, rfl, rfl⟩

/-- **C2**: for every valid `(index, payload)` accepted by `set_chunk`,
repeating the call with the identical payload yields
`RedundantSameContents(index)`, repeating it with a different same-length
payload yields `RedundantContentDiffers(index)`, and in both cases the state
(buffer and bitset) is returned byte-for-byte unchanged
(first-writer-wins). -/
theorem c2_redundant_set_chunk_first_writer_wins
    (s s' : BlobStreamIn) (idx : Nat) (payload : List Nat)
    (h : s.set_chunk idx payload = (s', .ok ())) :
    s'.set_chunk idx payload = (s', .error (.RedundantSameContents idx)) ∧
    ∀ payload2 : List Nat, payload2.length = payload.length →
      payload2 ≠ payload →
      s'.set_chunk idx payload2
        = (s', .error (.RedundantContentDiffers idx)) := by
  constructor
  · have hsame := set_chunk_after_ok h payload rfl
    rwa [if_pos rfl] at hsame
  · intro q hq hne
    have hdiff := set_chunk_after_ok h q hq
    rwa [if_neg (fun he => hne he.symm)] at hdiff

/-- Witness for C2 at a concrete input: `new(11, 5)`, chunk 0 set
successfully, then repeated with the same and with a different 5-byte
payload. -/
theorem c2_redundant_set_chunk_first_writer_wins_witness :
    (((new 11 5).set_chunk 0 [1, 2, 3, 4, 5]).1).set_chunk 0 [1, 2, 3, 4, 5]
      = (((new 11 5).set_chunk 0 [1, 2, 3, 4, 5]).1,
          .error (.RedundantSameContents 0)) ∧
    (((new 11 5).set_chunk 0 [1, 2, 3, 4, 5]).1).set_chunk 0 [9, 9, 9, 9, 9]
      = (((new 11 5).set_chunk 0 [1, 2, 3, 4, 5]).1,
          .error (.RedundantContentDiffers 0)) :=
  ⟨(c2_redundant_set_chunk_first_writer_wins (new 11 5)
      (((new 11 5).set_chunk 0 [1, 2, 3, 4, 5]).1) 0 [1, 2, 3, 4, 5] rfl).1,
    (c2_redundant_set_chunk_first_writer_wins (new 11 5)
      (((new 11 5).set_chunk 0 [1, 2, 3, 4, 5]).1) 0 [1, 2, 3, 4, 5] rfl).2
      [9, 9, 9, 9, 9] rfl (by decide)⟩

/-- The contiguous-prefix scan never runs past the end of the bitset. -/
theorem firstUnset_le_length (l : List Bool) : firstUnset l ≤ l.length := by
  induction l with
  | nil => simp [firstUnset]
  | cons b t ih =>
    cases b
    · simp [firstUnset]
    · simpa [firstUnset] using ih

/-- Every index before the scan result is a set bit. -/
theorem getD_lt_firstUnset (l : List Bool) :
    ∀ j, j < firstUnset l → l.getD j false = true := by
  induction l with
  | nil => intro j hj; simp [firstUnset] at hj
  | cons b t ih =>
    intro j hj
    cases b
    · simp [firstUnset] at hj
    · cases j with
      | zero => rfl
      | succ k =>
        simp only [firstUnset, if_pos] at hj
        simpa using ih k (by omega)

/-- When the scan stops inside the bitset, it stops on an unset bit. -/
theorem getD_firstUnset (l : List Bool) (h : firstUnset l < l.length) :
    l.getD (firstUnset l) false = false := by
  induction l with
  | nil => simp [firstUnset] at h
  | cons b t ih =>
    cases b
    · rfl
    · simp only [firstUnset, if_pos, List.length_cons] at h ⊢
      simpa using ih (by omega)

/-- Halving drops the low bit contributed by a guard. -/
theorem ite_add_two_mul_div_two (c : Prop) [Decidable c] (m : Nat) :
    ((if c then 1 else 0) + 2 * m) / 2 = m := by
  by_cases h : c
  · rw [if_pos h]; omega
  · rw [if_neg h]; omega

/-- Bit `i` of `ackMask bits start n` is the bit state of index
`start + i`, for `i < n` (out-of-range indices read as unset). -/
theorem testBit_ackMask (bits : List Bool) :
    ∀ n start i, i < n →
      (ackMask bits start n).testBit i = bits.getD (start + i) false := by
  intro n
  induction n with
  | zero => intro start i hi; omega
  | succ k ih =>
    intro start i hi
    cases i with
    | zero =>
      simp only [ackMask, Nat.testBit_zero, Nat.add_zero]
      cases hb : bits.getD start false
      · simp [hb]
      · simp [hb]
    | succ j =>
      simp only [ackMask, Nat.testBit_add_one]
      rw [ite_add_two_mul_div_two, ih (start + 1) j (by omega)]
      congr 1
      omega

/-- The `div_ceil` of `n` by a positive `c` is `n / c`, plus one exactly
when `c` does not divide `n`. -/
theorem div_ceil_eq (n c : Nat) (hc : 0 < c) :
    div_ceil n c = if n % c = 0 then n / c else n / c + 1 := by
  have hqr : c * (n / c) + n % c = n := Nat.div_add_mod n c
  have hr : n % c < c := Nat.mod_lt _ hc
  split_ifs with h0
  · rcases Nat.eq_zero_or_pos n with hn | hn
    · simp [div_ceil, hn, Nat.div_eq_of_lt, hc]
    · have harr : n + c - 1 = (c - 1) + c * (n / c) := by omega
      rw [div_ceil, harr, Nat.add_mul_div_left _ _ hc,
        Nat.div_eq_of_lt (by omega)]
      omega
  · have hx : c * (n / c + 1) = c * (n / c) + c := by ring
    have harr : n + c - 1 = (n % c - 1) + c * (n / c + 1) := by omega
    rw [div_ceil, harr, Nat.add_mul_div_left _ _ hc,
      Nat.div_eq_of_lt (by omega)]
    omega

/-- The offset/size arithmetic behind the `OutOfBounds` guard: for any valid
chunk index, the write region `[i * c, i * c + expected)` stays inside a
buffer of `n` bytes, where `expected` is computed as `set_chunk` does. -/
theorem chunk_region_le (n c : Nat) (hc : 0 < c) (i : Nat)
    (hi : i < div_ceil n c) :
    i * c + (if i = div_ceil n c - 1 then n % c else c) ≤ n := by
  have hqr : c * (n / c) + n % c = n := Nat.div_add_mod n c
  have hr : n % c < c := Nat.mod_lt _ hc
  have he := div_ceil_eq n c hc
  by_cases h0 : n % c = 0
  · rw [if_pos h0] at he
    split_ifs with hlast
    · rw [hlast, he, Nat.sub_one_mul, Nat.mul_comm (n / c) c]
      omega
    · rw [he] at hi hlast
      have hmul : (i + 1) * c ≤ (n / c - 1) * c :=
        Nat.mul_le_mul_right _ (by omega)
      rw [Nat.add_one_mul, Nat.sub_one_mul, Nat.mul_comm (n / c) c] at hmul
      omega
  · rw [if_neg h0] at he
    split_ifs with hlast
    · rw [hlast, he]
      simp only [Nat.add_sub_cancel]
      rw [Nat.mul_comm (n / c) c]
      omega
    · rw [he] at hi hlast
      have hmul : (i + 1) * c ≤ (n / c) * c :=
        Nat.mul_le_mul_right _ (by omega)
      rw [Nat.add_one_mul, Nat.mul_comm (n / c) c] at hmul
      omega

/-- **C3** (spec-modelled ack computation): for every receiver state, the
ack summary produced by `InLogic.send` satisfies the claim:
`waiting_for_chunk_index` is the least index whose bit is unset (it has an
all-set prefix below it, is at most `chunk_count`, and sits on an unset bit
when inside the bitset — hence equals `chunk_count` exactly when all bits
are set), and for every `i < 64`, bit `i` of `receive_mask_after_last` is
the bit state of index `waiting_for_chunk_index + 1 + i`, indices at or
beyond `chunk_count` reading as unset. -/
theorem c3_ack_summary_characterization (l : InLogic) :
    l.send = .AckChunk l.ackData ∧
    l.ackData.waiting_for_chunk_index ≤ l.in_stream.chunk_count ∧
    (∀ j, j < l.ackData.waiting_for_chunk_index →
      l.in_stream.bit_array.getD j false = true) ∧
    (l.ackData.waiting_for_chunk_index < l.in_stream.chunk_count →
      l.in_stream.bit_array.getD l.ackData.waiting_for_chunk_index false
        = false) ∧
    ∀ i, i < 64 →
      l.ackData.receive_mask_after_last.testBit i
        = l.in_stream.bit_array.getD
            (l.ackData.waiting_for_chunk_index + 1 + i) false := by
  refine ⟨rfl, ?_, ?_, ?_, ?_⟩
  · exact firstUnset_le_length l.in_stream.bit_array
  · exact getD_lt_firstUnset l.in_stream.bit_array
  · exact getD_firstUnset l.in_stream.bit_array
  · intro i hi
    exact testBit_ackMask l.in_stream.bit_array 64 _ i hi

/-- Witness for C3 at a concrete state: `new(11, 5)` after receiving chunk
index 2, where the mask's bit 1 reports index `0 + 1 + 1 = 2` as received. -/
theorem c3_ack_summary_characterization_witness :
    (((InLogic.new 11 5).receive
        (.SetChunk ⟨2, [0x8f]⟩)).1).ackData.receive_mask_after_last.testBit 1
      = (((InLogic.new 11 5).receive
          (.SetChunk ⟨2, [0x8f]⟩)).1).in_stream.bit_array.getD
          ((((InLogic.new 11 5).receive
              (.SetChunk ⟨2, [0x8f]⟩)).1).ackData.waiting_for_chunk_index
            + 1 + 1) false ∧
    ((((InLogic.new 11 5).receive
        (.SetChunk ⟨2, [0x8f]⟩)).1).ackData.waiting_for_chunk_index = 0 ∧
      (((InLogic.new 11 5).receive
          (.SetChunk ⟨2, [0x8f]⟩)).1).ackData.receive_mask_after_last = 2) :=
  ⟨(c3_ack_summary_characterization
      (((InLogic.new 11 5).receive (.SetChunk ⟨2, [0x8f]⟩)).1)).2.2.2.2 1
      (by decide),
    by constructor <;> rfl⟩

/-- **C4** (code bug): the claim states `blob()` returns `Some` exactly when
all chunks were successfully set, with the bytes equal to the concatenation
of the chunk payloads in index order.  For `new(10, 5)` (chunk size dividing
the total evenly) the code accepts a 5-byte chunk 0 and an *empty* chunk 1
(consequence of the `octet_count % fixed_chunk_size` slip), reports the
stream complete, and returns a 10-byte blob whose last 5 bytes were never
written — not equal to the concatenation `[1,1,1,1,1] ++ []` of the accepted
payloads. -/
theorem c4_blob_concatenation_code_bug :
    ((new 10 5).set_chunk 0 [1, 1, 1, 1, 1]).2 = .ok () ∧
    ((((new 10 5).set_chunk 0 [1, 1, 1, 1, 1]).1).set_chunk 1 []).2 = .ok () ∧
    (applyChunks (new 10 5) [(0, [1, 1, 1, 1, 1]), (1, [])]).is_complete
      = true ∧
    (applyChunks (new 10 5) [(0, [1, 1, 1, 1, 1]), (1, [])]).blobOpt
      = some [1, 1, 1, 1, 1, 0, 0, 0, 0, 0] ∧
    (applyChunks (new 10 5) [(0, [1, 1, 1, 1, 1]), (1, [])]).blobOpt
      ≠ some ([1, 1, 1, 1, 1] ++ []) :=
  ⟨rfl, rfl, rfl, rfl, by decide⟩

/-- **C9**: on every reachable `BlobStreamIn` (built by `new` with a
positive chunk size and any sequence of `set_chunk` calls), whenever the
index is valid the write region `index * fixed_chunk_size + expected_size`
stays within the buffer, and `set_chunk` never returns `OutOfBounds` — the
defensive branch is unreachable. -/
theorem c9_out_of_bounds_unreachable (n c : Nat) (hc : 0 < c)
    (ops : List (Nat × List Nat)) (i : Nat) (p : List Nat) :
    (i < (applyChunks (new n c) ops).chunk_count →
      i * (applyChunks (new n c) ops).fixed_chunk_size
        + expectedSize (applyChunks (new n c) ops) i
        ≤ (applyChunks (new n c) ops).blob.length) ∧
    ((applyChunks (new n c) ops).set_chunk i p).2 ≠ .error .OutOfBounds := by
  obtain ⟨hwf1, hwf2, hwf3⟩ := wf_applyChunks (wf_new n c hc) ops
  have hbound : i < (applyChunks (new n c) ops).bit_array.length →
      i * (applyChunks (new n c) ops).fixed_chunk_size
        + expectedSize (applyChunks (new n c) ops) i
        ≤ (applyChunks (new n c) ops).blob.length := by
    intro hi
    have harith := chunk_region_le (applyChunks (new n c) ops).octet_count
      (applyChunks (new n c) ops).fixed_chunk_size hwf1 i (by omega)
    simp only [expectedSize]
    rw [hwf3, hwf2]
    exact harith
  refine ⟨fun hi => hbound hi, ?_⟩
  simp only [set_chunk]
  split_ifs with g1 g2 g3 g4 g5
  · simp
  · simp
  · exact absurd (hbound (by omega)) (by omega)
  · simp
  · simp
  · simp

/-- Witness for C9 at a concrete input. -/
theorem c9_out_of_bounds_unreachable_witness :
    ((applyChunks (new 11 5) []).set_chunk 0 []).2 ≠ .error .OutOfBounds ∧
    (0 : Nat) < 5 :=
  ⟨(c9_out_of_bounds_unreachable 11 5 (by decide) [] 0 []).2, by decide⟩

/-- The expected chunk size never exceeds the fixed chunk size. -/
theorem expectedSize_le (s : BlobStreamIn) (h : 0 < s.fixed_chunk_size)
    (k : Nat) : expectedSize s k ≤ s.fixed_chunk_size := by
  unfold expectedSize
  split
  · exact Nat.le_of_lt (Nat.mod_lt _ h)
  · exact Nat.le_refl _

/-- In an all-set bitset every in-range bit reads `true`. -/
theorem getD_eq_true_of_all {l : List Bool} (h : l.all (fun b => b) = true)
    {i : Nat} (hi : i < l.length) : l.getD i false = true := by
  rw [List.getD_eq_getElem?_getD, List.getElem?_eq_getElem hi]
  exact List.all_eq_true.mp h _ (List.getElem_mem hi)

/-- A set bit survives any later `set_chunk` call. -/
theorem getD_bit_set_chunk_mono {s : BlobStreamIn} {i : Nat} {p : List Nat}
    (j : Nat) (h : s.bit_array.getD j false = true) :
    ((s.set_chunk i p).1).bit_array.getD j false = true := by
  rcases set_chunk_fst_cases s i p with heq | ⟨hlt, hp, hb, hg, heq⟩
  · rw [heq]; exact h
  · rw [heq]
    by_cases hij : i = j
    · subst hij
      exact getD_set_self _ _ _ hlt
    · rw [getD_set_ne _ _ _ _ hij]; exact h

/-- The stored bytes of an already-received chunk survive any later
`set_chunk` call. -/
theorem chunkBytes_set_chunk_of_set {s : BlobStreamIn} (hwf : Wf s)
    {i : Nat} {p : List Nat} (j : Nat)
    (h : s.bit_array.getD j false = true) :
    ((s.set_chunk i p).1).chunkBytes j = s.chunkBytes j := by
  rcases set_chunk_fst_cases s i p with heq | ⟨hlt, hp, hb, hg, heq⟩
  · rw [heq]
  · have hij : i ≠ j := by
      intro he
      rw [he, h] at hg
      exact absurd hg (by simp)
    rw [heq]
    have hexp : expectedSize { s with
        blob := s.blob.take (i * s.fixed_chunk_size) ++ p
          ++ s.blob.drop (i * s.fixed_chunk_size + expectedSize s i)
        bit_array := s.bit_array.set i true } j = expectedSize s j := by
      simp [expectedSize]
    simp only [chunkBytes, hexp]
    have hdisj : j * s.fixed_chunk_size + expectedSize s j
          ≤ i * s.fixed_chunk_size
        ∨ i * s.fixed_chunk_size + expectedSize s i
          ≤ j * s.fixed_chunk_size := by
      rcases Nat.lt_or_ge j i with hji | hji
      · left
        have h1 : expectedSize s j ≤ s.fixed_chunk_size :=
          expectedSize_le s hwf.1 j
        have h2 : (j + 1) * s.fixed_chunk_size ≤ i * s.fixed_chunk_size :=
          Nat.mul_le_mul_right _ (by omega)
        rw [Nat.add_one_mul] at h2
        omega
      · right
        have h1 : expectedSize s i ≤ s.fixed_chunk_size :=
          expectedSize_le s hwf.1 i
        have h2 : (i + 1) * s.fixed_chunk_size ≤ j * s.fixed_chunk_size :=
          Nat.mul_le_mul_right _ (by omega)
        rw [Nat.add_one_mul] at h2
        omega
    exact drop_take_splice_outside s.blob p _ _ _ _ hp hb hdisj

/-- On a complete stream every `set_chunk` call leaves the state unchanged
(every branch is an error returning `self` as it was). -/
theorem set_chunk_complete_unchanged {s : BlobStreamIn}
    (hcmp : s.is_complete = true) (i : Nat) (p : List Nat) :
    (s.set_chunk i p).1 = s := by
  rcases set_chunk_fst_cases s i p with heq | ⟨hlt, hp, hb, hg, heq⟩
  · exact heq
  · rw [getD_eq_true_of_all hcmp hlt] at hg
    exact absurd hg (by simp)

/-- On a complete stream any further sequence of `set_chunk` calls leaves
the state unchanged. -/
theorem applyChunks_complete_unchanged {s : BlobStreamIn}
    (hcmp : s.is_complete = true) (ops : List (Nat × List Nat)) :
    applyChunks s ops = s := by
  induction ops with
  | nil => rfl
  | cons op rest ih =>
    show applyChunks (s.set_chunk op.1 op.2).1 rest = s
    rw [set_chunk_complete_unchanged hcmp]
    exact ih

/-- **C10**: chunk reception is monotone on every reachable `BlobStreamIn`:
a set bit is never cleared by a later `set_chunk` (whatever its result), the
stored bytes of an already-set chunk never change, and once `is_complete()`
is true it stays true under any further call sequence with `blob()`
returning the same bytes. -/
theorem c10_set_chunk_monotone (n c : Nat) (hc : 0 < c)
    (ops : List (Nat × List Nat)) (i : Nat) (p : List Nat) (j : Nat)
    (ops2 : List (Nat × List Nat)) :
    ((applyChunks (new n c) ops).bit_array.getD j false = true →
      (((applyChunks (new n c) ops).set_chunk i p).1).bit_array.getD j false
        = true) ∧
    ((applyChunks (new n c) ops).bit_array.getD j false = true →
      (((applyChunks (new n c) ops).set_chunk i p).1).chunkBytes j
        = (applyChunks (new n c) ops).chunkBytes j) ∧
    ((applyChunks (new n c) ops).is_complete = true →
      applyChunks (applyChunks (new n c) ops) ops2
          = applyChunks (new n c) ops ∧
      (applyChunks (applyChunks (new n c) ops) ops2).is_complete = true ∧
      (applyChunks (applyChunks (new n c) ops) ops2).blobOpt
        = (applyChunks (new n c) ops).blobOpt) := by
  have hwf := wf_applyChunks (wf_new n c hc) ops
  refine ⟨fun h => getD_bit_set_chunk_mono j h,
    fun h => chunkBytes_set_chunk_of_set hwf j h,
    fun hcmp => ?_⟩
  rw [applyChunks_complete_unchanged hcmp]
  exact ⟨rfl, hcmp, rfl⟩

/-- Witness for C10 at a concrete input: `new(11, 5)` with chunk 0 set, then
a `set_chunk` on index 1; completed stream case with extra calls. -/
theorem c10_set_chunk_monotone_witness :
    ((applyChunks (new 11 5) [(0, [1, 2, 3, 4, 5])]).bit_array.getD 0 false
        = true) ∧
    (((applyChunks (new 11 5) [(0, [1, 2, 3, 4, 5])]).set_chunk 1
        [6, 7, 8, 9, 10]).1).chunkBytes 0
      = (applyChunks (new 11 5) [(0, [1, 2, 3, 4, 5])]).chunkBytes 0 ∧
    (0 : Nat) < 5 :=
  ⟨by decide,
    (c10_set_chunk_monotone 11 5 (by decide) [(0, [1, 2, 3, 4, 5])] 1
        [6, 7, 8, 9, 10] 0 []).2.1 (by decide),
    by decide⟩


/-! ## C5: wire round trip -/

/-- `readU16` recovers the value written by `u16Bytes` (mod `2 ^ 16`). -/
theorem readU16_u16Bytes (v : Nat) (r : List Nat) :
    readU16 (u16Bytes v ++ r) = some (v % 2 ^ 16, r) := by
  simp [u16Bytes, readU16, readU8]
  omega

/-- `readU32` recovers the value written by `u32Bytes` (mod `2 ^ 32`). -/
theorem readU32_u32Bytes (v : Nat) (r : List Nat) :
    readU32 (u32Bytes v ++ r) = some (v % 2 ^ 32, r) := by
  simp [u32Bytes, readU32, readU16, readU8]
  omega

/-- `readU64` recovers the value written by `u64Bytes` (mod `2 ^ 64`). -/
theorem readU64_u64Bytes (v : Nat) (r : List Nat) :
    readU64 (u64Bytes v ++ r) = some (v % 2 ^ 64, r) := by
  simp [u64Bytes, readU64, readU32, readU16, readU8]
  omega

/-- `SetChunkData` round-trips through the octet stream when the index fits
a `u32` (as the Rust type guarantees) and the payload length is below
`2 ^ 16` (the `as u16` cast in `to_stream` truncates longer payloads). -/
theorem setChunkData_roundtrip (d : SetChunkData) (hi : d.chunk_index < 2 ^ 32)
    (hp : d.payload.length < 2 ^ 16) :
    SetChunkData.from_stream d.to_stream = some (d, []) := by
  obtain ⟨ci, pl⟩ := d
  simp only at hi hp
  have hci : ci % 4294967296 = ci := by omega
  have hpl : pl.length % 65536 = pl.length := by omega
  simp only [SetChunkData.to_stream, SetChunkData.from_stream]
  rw [List.append_assoc, readU32_u32Bytes]
  simp [readU16_u16Bytes, readOctets, hci, hpl]

/-- `AckChunkData` round-trips through the octet stream for every value that
fits the Rust `u32`/`u64` field types. -/
theorem ackChunkData_roundtrip (a : AckChunkData)
    (hw : a.waiting_for_chunk_index < 2 ^ 32)
    (hm : a.receive_mask_after_last < 2 ^ 64) :
    AckChunkData.from_stream a.to_stream = some (a, []) := by
  obtain ⟨w, m⟩ := a
  simp only at hw hm
  have hww : w % 4294967296 = w := by omega
  have hmm : m % 18446744073709551616 = m := by omega
  have h64 := readU64_u64Bytes m []
  rw [List.append_nil] at h64
  simp only [AckChunkData.to_stream, AckChunkData.from_stream]
  rw [readU32_u32Bytes]
  simp [h64, hww, hmm]

/-- Counterexample for C5 as stated: the command
`SetChunk { chunk_index: 0, payload: vec![0; 65536] }` (a legal Rust value —
`Vec` is not bounded by `u16`) does not round-trip: `to_stream` truncates
the length (`payload.len() as u16` = 0), so decoding yields the *different*
command `SetChunk { chunk_index: 0, payload: vec![] }` with the 65536
payload bytes left unread on the stream. -/
theorem c5_roundtrip_counterexample :
    SenderToReceiverCommands.from_stream
        (SenderToReceiverCommands.to_stream
          (.SetChunk ⟨0, List.replicate 65536 0⟩))
      = some (.SetChunk ⟨0, []⟩, List.replicate 65536 0) ∧
    (SenderToReceiverCommands.SetChunk ⟨0, []⟩)
      ≠ .SetChunk ⟨0, List.replicate 65536 0⟩ := by
  constructor
  · have hgen : ∀ pl : List Nat, pl.length = 65536 →
        SenderToReceiverCommands.from_stream
          (SenderToReceiverCommands.to_stream (.SetChunk ⟨0, pl⟩))
        = some (.SetChunk ⟨0, []⟩, pl) := by
      intro pl hlen
      simp only [SenderToReceiverCommands.to_stream,
        SenderToReceiverCommands.to_octet, SetChunkData.to_stream, hlen]
      simp [SenderToReceiverCommands.from_stream, SetChunkData.from_stream,
        readU8, List.append_assoc, readU32_u32Bytes, readU16_u16Bytes,
        readOctets]
    exact hgen _ (by rw [List.length_replicate])
  · intro hcontra
    injection hcontra with h1
    have hlen := congrArg List.length (congrArg SetChunkData.payload h1)
    simp only [List.length_replicate, List.length_nil] at hlen
    exact absurd hlen (by omega)

/-- **C5** (amended): every `SenderToReceiverCommands::SetChunk` whose
payload is shorter than `2 ^ 16` bytes, and every
`ReceiverToSenderCommands::AckChunk`, encodes with `to_stream` and decodes
with `from_stream` back to an equal command consuming the whole stream (the
`< 2 ^ 32` / `< 2 ^ 64` bounds state the Rust integer field types; the
payload-length bound is forced by the truncating `payload.len() as u16`
cast, see the counterexample). -/
theorem c5_command_roundtrip :
    (∀ d : SetChunkData, d.chunk_index < 2 ^ 32 → d.payload.length < 2 ^ 16 →
      SenderToReceiverCommands.from_stream
          (SenderToReceiverCommands.to_stream (.SetChunk d))
        = some (.SetChunk d, [])) ∧
    (∀ a : AckChunkData, a.waiting_for_chunk_index < 2 ^ 32 →
      a.receive_mask_after_last < 2 ^ 64 →
      ReceiverToSenderCommands.from_stream
          (ReceiverToSenderCommands.to_stream (.AckChunk a))
        = some (.AckChunk a, [])) := by
  constructor
  · intro d hi hp
    simp [SenderToReceiverCommands.to_stream,
      SenderToReceiverCommands.to_octet,
      SenderToReceiverCommands.from_stream, readU8,
      setChunkData_roundtrip d hi hp]
  · intro a hw hm
    simp [ReceiverToSenderCommands.to_stream,
      ReceiverToSenderCommands.to_octet,
      ReceiverToSenderCommands.from_stream, readU8,
      ackChunkData_roundtrip a hw hm]

/-- Witness for C5 at concrete commands from both families. -/
theorem c5_command_roundtrip_witness :
    SenderToReceiverCommands.from_stream
        (SenderToReceiverCommands.to_stream (.SetChunk ⟨7, [1, 2, 3]⟩))
      = some (.SetChunk ⟨7, [1, 2, 3]⟩, []) ∧
    ReceiverToSenderCommands.from_stream
        (ReceiverToSenderCommands.to_stream (.AckChunk ⟨3, 2⟩))
      = some (.AckChunk ⟨3, 2⟩, []) :=
  ⟨c5_command_roundtrip.1 ⟨7, [1, 2, 3]⟩ (by decide) (by decide),
    c5_command_roundtrip.2 ⟨3, 2⟩ (by decide) (by decide)⟩


/-! ## C6/C7/C8: the multi-transfer front -/

/-- **C6**: a `StartTransfer` for a transfer id that already has a session
leaves the whole `InLogicFront` state untouched (the session for that id,
with all its chunk-reception progress, and every other session), whatever
parameters the repeated start carries — `entry(id).or_insert_with(..)`
ignores the insertion when the key is present. -/
theorem c6_start_transfer_idempotent (f : InLogicFront)
    (d : StartTransferData) (s : InLogic)
    (h : f.transfers.lookup d.transfer_id = some s) :
    f.receive (.StartTransfer d) = (f, .ok ()) := by
  simp [InLogicFront.receive, h]

/-- Witness for C6: a front holding transfer 1, re-started with different
parameters, is unchanged. -/
theorem c6_start_transfer_idempotent_witness :
    ((InLogicFront.new.receive (.StartTransfer ⟨1, 8, 2⟩)).1).receive
        (.StartTransfer ⟨1, 16, 4⟩)
      = ((InLogicFront.new.receive (.StartTransfer ⟨1, 8, 2⟩)).1, .ok ()) ∧
    ((InLogicFront.new.receive
        (.StartTransfer ⟨1, 8, 2⟩)).1).transfers.lookup 1
      = some (InLogic.new 8 2) :=
  ⟨c6_start_transfer_idempotent
      ((InLogicFront.new.receive (.StartTransfer ⟨1, 8, 2⟩)).1)
      ⟨1, 16, 4⟩ (InLogic.new 8 2) rfl,
    rfl⟩

/-- Counterexample for C7 as stated: `InLogicFront::receive` succeeds on
`StartTransfer` but produces *no* acknowledgment-of-start response carrying
the transfer id — its success value is the unit value, identical for two
different transfer ids (so no reading of the result can recover the id),
and the outgoing-command producer `send` emits only wrapped `AckChunk`
commands, never an `AckStart`.  (The `AckStart` answer exercised by
`tests/in_logic_front.rs` belongs to the other front variant,
`FrontLogic::update`, which is not part of `src/in_logic_front.rs`.) -/
theorem c7_no_ack_start_counterexample :
    (InLogicFront.new.receive (.StartTransfer ⟨1, 8, 2⟩)).2 = .ok () ∧
    (InLogicFront.new.receive (.StartTransfer ⟨2, 8, 2⟩)).2 = .ok () ∧
    (¬ ∃ f : Except IoError Unit → Nat,
      f (InLogicFront.new.receive (.StartTransfer ⟨1, 8, 2⟩)).2 = 1 ∧
      f (InLogicFront.new.receive (.StartTransfer ⟨2, 8, 2⟩)).2 = 2) ∧
    ((InLogicFront.new.receive (.StartTransfer ⟨1, 8, 2⟩)).1).send
      = [.AckChunk ⟨1, ⟨0, 0⟩⟩] := by
  refine ⟨rfl, rfl, ?_, rfl⟩
  rintro ⟨f, h1, h2⟩
  rw [show (InLogicFront.new.receive (.StartTransfer ⟨1, 8, 2⟩)).2
      = Except.ok () from rfl] at h1
  rw [show (InLogicFront.new.receive (.StartTransfer ⟨2, 8, 2⟩)).2
      = Except.ok () from rfl] at h2
  omega

/-- **C7** (amended): processing a `StartTransfer` with a positive chunk
size succeeds — `InLogicFront::receive` returns `Ok(())`, creating the
session when absent — but it produces no acknowledgment-of-start response:
the success value is unit and carries no transfer id (see the
counterexample; the `AckStart` reply belongs to the other, single-transfer
front variant).  The `0 < chunk_size` hypothesis stands for the
`assert!(fixed_chunk_size > 0)` in `BlobStreamIn::new` (`src/lib.rs`
line 64), which aborts instead of returning when a session would be created
with a zero chunk size. -/
theorem c7_start_transfer_succeeds (f : InLogicFront)
    (d : StartTransferData) (_hc : 0 < d.chunk_size) :
    (f.receive (.StartTransfer d)).2 = .ok () := by
  cases h : f.transfers.lookup d.transfer_id <;>
    simp [InLogicFront.receive, h]

/-- Witness for the amended C7 at a concrete input. -/
theorem c7_start_transfer_succeeds_witness :
    (0 : Nat) < 2 ∧
    (InLogicFront.new.receive (.StartTransfer ⟨1, 8, 2⟩)).2 = .ok () :=
  ⟨by decide,
    c7_start_transfer_succeeds InLogicFront.new ⟨1, 8, 2⟩ (by decide)⟩

/-- **C8**: a `SetChunk` for a transfer id with no session fails with the
unknown-transfer error and returns the state unchanged: no session is
created and every existing session is untouched. -/
theorem c8_unknown_transfer_rejected (f : InLogicFront)
    (cd : SetChunkFrontData)
    (h : f.transfers.lookup cd.transfer_id = none) :
    f.receive (.SetChunk cd)
      = (f, .error (.unknownTransferId cd.transfer_id)) := by
  simp [InLogicFront.receive, h]

/-- Witness for C8: a chunk for id 7 on a front that only knows id 1. -/
theorem c8_unknown_transfer_rejected_witness :
    ((InLogicFront.new.receive (.StartTransfer ⟨1, 8, 2⟩)).1).receive
        (.SetChunk ⟨7, ⟨0, [0xab, 0xcd]⟩⟩)
      = ((InLogicFront.new.receive (.StartTransfer ⟨1, 8, 2⟩)).1,
          .error (.unknownTransferId 7)) :=
  c8_unknown_transfer_rejected
    ((InLogicFront.new.receive (.StartTransfer ⟨1, 8, 2⟩)).1)
    ⟨7, ⟨0, [0xab, 0xcd]⟩⟩ rfl

end BlobStream
